import Mathlib

/-!
Shallow embedding of the similarity-match regeneration engine of the
cron-saffron repository (src/cron_regenerate.py, the current implementation,
and src/cron_regenerate_matches.py, the legacy near-duplicate).

Modelling conventions:
* machine floats (`winning_bid`, pinecone scores) are modelled as exact
  rationals; Python's `round(x, 2)` is modelled as rounding the rational to
  two decimal places;
* `dateutil.parser.parse` is external library code; its outcome on a stored
  date string is modelled by the `Parsed` type (`ok` with the parsed datetime,
  or `err` for a string that raises).  A datetime is a calendar-day index plus
  a time-of-day; `<` is lexicographic and `.date()` is the day component;
* Python dicts built by `build_hashmaps` are modelled as lookup functions
  (`dict.get` returns `None` both for an absent key and for a key stored with
  value `None`, so the two collapse into `Option`);
* MongoDB documents are modelled as string-keyed partial maps; `UpdateOne`
  / `update_one` without `upsert` matches at most the existing record with the
  given `_id` (never inserts), which is reflected in `applyOp`.
-/

namespace CronSaffron

/-- A datetime as produced by `dateutil.parser.parse`: a calendar-day index
and a time-of-day.  `.date()` projects to `day`. -/
structure DateTime where
  day : Int
  tod : Int
deriving DecidableEq

/-- Python `<` on datetimes: lexicographic on (day, time-of-day). -/
def DateTime.ltb (a b : DateTime) : Bool :=
  a.day < b.day || (a.day == b.day && a.tod < b.tod)

/-- Outcome of `dateutil.parser.parse` on a stored date string: `ok d` when
the string parses to datetime `d`, `err` when parsing raises. -/
inductive Parsed where
  | ok (d : DateTime)
  | err
deriving DecidableEq

/-- A scalar MongoDB field value (string or numeric). -/
inductive Val where
  | str (s : String)
  | num (q : ℚ)
deriving DecidableEq

/-- One pinecone neighbor as returned by `index.query`: `{'id': ..., 'score': ...}`. -/
structure PMatch where
  id : String
  score : ℚ
deriving DecidableEq

/-- One categorized match (`match_data` in the source):
`{'id': match_id, 'price': match_price, 'score': match_score}`. -/
structure Entry where
  id : String
  price : Option Val
  score : ℚ
deriving DecidableEq

/-- The three match containers of `process_matches`
(`categories = {'overall': [], 'same_day': [], 'before': []}`). -/
structure Cats where
  overall : List Entry
  same_day : List Entry
  before : List Entry
deriving DecidableEq

abbrev BidMap := String → Option Val
abbrev DateMap := String → Option Parsed
abbrev HouseMap := String → Option String

/-- Python `round(x, 2)` modelled on exact rationals. -/
def roundTo2 (x : ℚ) : ℚ := ((round (x * 100) : ℤ) : ℚ) / 100

/-- `match_score = round(match['score'] * 100, 2)`. -/
def matchScore (raw : ℚ) : ℚ := roundTo2 (raw * 100)

/-- Python `str.replace` of one character by another, written char-wise
(equivalent, since the pattern is a single character). -/
def replChar (pat rep : Char) (s : String) : String :=
  ⟨s.data.map fun ch => if ch = pat then rep else ch⟩

/-- Python `str.strip()`: drop leading and trailing whitespace. -/
def pyStrip (s : String) : String :=
  ⟨(((s.data.dropWhile Char.isWhitespace).reverse).dropWhile Char.isWhitespace).reverse⟩

/-- Normalization applied to neighbor ids: `match['id'].replace('\\', '/')`. -/
def normMatchId (s : String) : String := replChar (Char.ofNat 92) (Char.ofNat 47) s

/-- Normalization applied to the subject's `none_@file` value:
`raw_image_id.replace('\\', '/').strip()`. -/
def normFileId (s : String) : String := pyStrip (replChar (Char.ofNat 92) (Char.ofNat 47) s)

/-- The per-subject context of one `process_matches` call: the subject's
resolved date and auction house plus the three lookup maps. -/
structure Ctx where
  input_date : Option DateTime
  input_house : Option String
  bid : BidMap
  date : DateMap
  house : HouseMap

/-- Resolution of the subject's own date in `process_matches`
(cron_regenerate.py lines 150-157): absent string gives `None`, a parse
failure is caught and also gives `None`. -/
def subjectDate (dm : DateMap) (imageId : String) : Option DateTime :=
  match dm imageId with
  | some (.ok d) => some d
  | _ => none

def mkCtx (imageId : String) (bid : BidMap) (dm : DateMap) (hm : HouseMap) : Ctx :=
  ⟨subjectDate dm imageId, hm imageId, bid, dm, hm⟩

/-- Resolution of a neighbor's date in cron_regenerate.py lines 173-180:
`none` models the `continue` on a parse exception; `some md` carries the
optional datetime (`md = none` when no date string is stored). -/
def matchDateOf (c : Ctx) (mid : String) : Option (Option DateTime) :=
  match c.date mid with
  | none => some none
  | some (.ok d) => some (some d)
  | some .err => none

/-- The `match_data` record built for a neighbor. -/
def mkEntryOf (c : Ctx) (m : PMatch) : Entry :=
  ⟨normMatchId m.id, c.bid (normMatchId m.id), matchScore m.score⟩

/-- The same-day condition of cron_regenerate.py line 190:
`match_date.date() == input_date.date() and input_auction_house == match_auction_house`.
Note Python `==` on two `None` auction houses is `True`, which `Option.beq`
reproduces. -/
def sameDayCond (c : Ctx) (idt mdt : DateTime) (mid : String) : Bool :=
  mdt.day == idt.day && c.input_house == c.house mid

/-- One iteration of the `for match in matches` loop body of
cron_regenerate.py `process_matches` (lines 170-198), minus the early-exit
check which lives in `loop1`. -/
def step1 (c : Ctx) (st : Cats) (m : PMatch) : Cats :=
  let mid := normMatchId m.id
  match matchDateOf c mid with
  | none => st
  | some md =>
    let e := mkEntryOf c m
    let st1 :=
      match c.input_date, md with
      | some idt, some mdt =>
        if sameDayCond c idt mdt mid then
          if st.same_day.length < 5 then ⟨st.overall, st.same_day ++ [e], st.before⟩ else st
        else if DateTime.ltb mdt idt then
          if st.before.length < 5 then ⟨st.overall, st.same_day, st.before ++ [e]⟩ else st
        else st
      | _, _ => st
    if st1.overall.length < 5 then ⟨st1.overall ++ [e], st1.same_day, st1.before⟩ else st1

/-- Early-exit test of cron_regenerate.py line 167 (and
cron_regenerate_matches.py line 141): all three containers hold 5 or more. -/
def isFull (st : Cats) : Bool :=
  5 ≤ st.overall.length && 5 ≤ st.same_day.length && 5 ≤ st.before.length

/-- The match loop of cron_regenerate.py `process_matches`: the early-exit
check runs at the top of each iteration (line 167) and `break`s. -/
def loop1 (c : Ctx) : Cats → List PMatch → Cats
  | st, [] => st
  | st, m :: ms => if isFull st then st else loop1 (c) (step1 c st m) ms

/-- The categorization core of cron_regenerate.py `process_matches`:
resolve the subject's date and auction house, then scan the ranked neighbor
list.  `imageId` is the already-normalized subject id. -/
def categorize1 (imageId : String) (nbrs : List PMatch)
    (bid : BidMap) (dm : DateMap) (hm : HouseMap) : Cats :=
  loop1 (mkCtx imageId bid dm hm) ⟨[], [], []⟩ nbrs

/-- One iteration of the legacy loop body (cron_regenerate_matches.py lines
104-138): a neighbor whose date string is absent (`parse(None)` raises) or
unparseable is skipped entirely; same-day uses full datetime equality. -/
def step2 (c : Ctx) (st : Cats) (m : PMatch) : Cats :=
  let mid := normMatchId m.id
  match c.date mid with
  | some (.ok mdt) =>
    let e := mkEntryOf c m
    let st1 :=
      match c.input_date with
      | some idt =>
        if mdt == idt && c.input_house == c.house mid then
          if st.same_day.length < 5 then ⟨st.overall, st.same_day ++ [e], st.before⟩ else st
        else if DateTime.ltb mdt idt then
          if st.before.length < 5 then ⟨st.overall, st.same_day, st.before ++ [e]⟩ else st
        else st
      | none => st
    if st1.overall.length < 5 then ⟨st1.overall ++ [e], st1.same_day, st1.before⟩ else st1
  | _ => st

/-- The legacy match loop: the early-exit check runs at the bottom of each
iteration (cron_regenerate_matches.py lines 140-142). -/
def loop2 (c : Ctx) : Cats → List PMatch → Cats
  | st, [] => st
  | st, m :: ms =>
    let st1 := step2 c st m
    if isFull st1 then st1 else loop2 (c) st1 ms

/-- The categorization core of the legacy
cron_regenerate_matches.py `process_matches`. -/
def categorize2 (imageId : String) (nbrs : List PMatch)
    (bid : BidMap) (dm : DateMap) (hm : HouseMap) : Cats :=
  loop2 (mkCtx imageId bid dm hm) ⟨[], [], []⟩ nbrs

/-- Full-scan variant of `loop1` / `loop2` without the early-exit `break`;
per spec section 4.3 step 3 this is the reference behavior the cutoff must
refine. -/
def loopFull (step : Cats → PMatch → Cats) (st : Cats) (ms : List PMatch) : Cats :=
  ms.foldl step st

/-- `categorize1` with the performance cutoff removed (spec-side reference
for the refinement claim). -/
def categorize1Full (imageId : String) (nbrs : List PMatch)
    (bid : BidMap) (dm : DateMap) (hm : HouseMap) : Cats :=
  loopFull (step1 (mkCtx imageId bid dm hm)) ⟨[], [], []⟩ nbrs

/-- `categorize2` with the performance cutoff removed. -/
def categorize2Full (imageId : String) (nbrs : List PMatch)
    (bid : BidMap) (dm : DateMap) (hm : HouseMap) : Cats :=
  loopFull (step2 (mkCtx imageId bid dm hm)) ⟨[], [], []⟩ nbrs

/-! ### The 45-field schema and the per-document field population -/

/-- A match category. -/
inductive Cat where
  | overall
  | same_day
  | before
deriving DecidableEq

/-- One of the three scalar fields of a slot. -/
inductive FieldKind where
  | id
  | price
  | score
deriving DecidableEq

def Cat.name : Cat → String
  | .overall => "overall"
  | .same_day => "same_day"
  | .before => "before"

def FieldKind.name : FieldKind → String
  | .id => "id"
  | .price => "price"
  | .score => "score"

/-- The persisted field name `{category}_match_{i}_{field}`; `i` is the
1-based slot index. -/
def fieldName (c : Cat) (i : Nat) (f : FieldKind) : String :=
  c.name ++ "_match_" ++ toString i ++ "_" ++ f.name

def Cats.get (st : Cats) : Cat → List Entry
  | .overall => st.overall
  | .same_day => st.same_day
  | .before => st.before

/-- The value one field of a `match_data` entry contributes. -/
def entryField (e : Entry) : FieldKind → Option Val
  | .id => some (.str e.id)
  | .price => e.price
  | .score => some (.num e.score)

/-- The document fields written by `process_matches`: all 45 fields are first
initialized to `None` (cron_regenerate.py lines 139-143), then slots
`1..len(matches[:5])` of each category are populated (lines 201-205).  `i` is
the 0-based slot index (field names use `i+1`). -/
def fillDoc (st : Cats) (c : Cat) (i : Nat) (f : FieldKind) : Option Val :=
  match ((st.get c).take 5).get? i with
  | some e => entryField e f
  | none => none

/-- The slot enumeration of `update_mongodb` (cron_regenerate.py lines
213-218): categories outermost, then slots 1..5, then id/price/score. -/
def updateFieldsList : List (Cat × Nat × FieldKind) :=
  [Cat.overall, Cat.same_day, Cat.before].flatMap fun c =>
    (List.range 5).flatMap fun i =>
      [FieldKind.id, FieldKind.price, FieldKind.score].map fun f => (c, i, f)

/-- The 45 persisted field names, in `update_fields` order. -/
def matchFieldNames : List String :=
  updateFieldsList.map fun s => fieldName s.1 (s.2.1 + 1) s.2.2

/-! ### Fetched documents, the orchestrator and the writer -/

/-- A document as fetched by `fetch_documents` (cron_regenerate.py lines
80-90): projection `{none_@file, winning_bid, iso_date, auction_house}`.  The
query requires `none_@file` to exist and be non-null, so `file` is a string
(possibly empty).  `iso_date` is a Mongo datetime or null; `build_hashmaps`
stores `iso_date.isoformat()`, which `dateutil` always parses back, so such
entries never hit `Parsed.err`. -/
structure FetchedDoc where
  docId : Nat
  file : String
  winning_bid : Option Val
  iso_date : Option DateTime
  auction_house : Option String
deriving DecidableEq

/-- The documents `build_hashmaps` keys (cron_regenerate.py lines 98-113):
those with a non-empty raw id, under the normalized id. -/
def buildEntries (docs : List FetchedDoc) : List (String × FetchedDoc) :=
  docs.filterMap fun d =>
    if d.file = "" then none else some (normFileId d.file, d)

/-- Python dict semantics: the last write for a duplicate key wins. -/
def mapLookup (docs : List FetchedDoc) (k : String) : Option FetchedDoc :=
  ((buildEntries docs).reverse.find? fun p => p.1 == k).map fun p => p.2

/-- `image_id_to_winning_bid` (a stored `None` and an absent key both read
back as `None`). -/
def bidOf (docs : List FetchedDoc) : BidMap :=
  fun k => (mapLookup docs k).bind fun d => d.winning_bid

/-- `image_id_to_date`: `iso_date.isoformat() if iso_date else None`, and the
isoformat round-trip always parses. -/
def dateOf (docs : List FetchedDoc) : DateMap :=
  fun k => (mapLookup docs k).bind fun d => d.iso_date.map Parsed.ok

/-- `image_id_to_auction_house`. -/
def houseOf (docs : List FetchedDoc) : HouseMap :=
  fun k => (mapLookup docs k).bind fun d => d.auction_house

/-- A document after the orchestrator loop: its fetched base plus, when
`process_matches` ran on it, the 45 match fields (all present, each either a
value or Python `None`).  `fields = none` models a document that still has
none of the 45 keys. -/
structure ProcDoc where
  base : FetchedDoc
  fields : Option (Cat → Nat → FieldKind → Option Val)

/-- `process_matches` at document level (cron_regenerate.py lines 130-207):
initialize all 45 fields, return immediately on an empty raw id, otherwise
categorize under the normalized id and populate the slots. -/
def docProcessMatches1 (d : FetchedDoc) (nbrs : List PMatch)
    (bid : BidMap) (dm : DateMap) (hm : HouseMap) : ProcDoc :=
  if d.file = "" then ⟨d, some fun _ _ _ => none⟩
  else ⟨d, some (fillDoc (categorize1 (normFileId d.file) nbrs bid dm hm))⟩

/-- One iteration of the orchestrator loop (cron_regenerate.py lines
267-280): an empty image id or an empty pinecone result appends the document
unchanged; otherwise `process_matches` runs.  `pc` is the pinecone index,
queried with the raw (unnormalized) image id. -/
def runDoc (bid : BidMap) (dm : DateMap) (hm : HouseMap)
    (pc : String → List PMatch) (d : FetchedDoc) : ProcDoc :=
  if d.file = "" then ⟨d, none⟩
  else if (pc d.file).isEmpty then ⟨d, none⟩
  else docProcessMatches1 d (pc d.file) bid dm hm

/-- The pure core of `regenerate_matches` (cron_regenerate.py lines 250-290):
build the lookup maps once from the fetched batch, then process every
document in order. -/
def regenerateRun (docs : List FetchedDoc) (pc : String → List PMatch) :
    List ProcDoc :=
  docs.map (runDoc (bidOf docs) (dateOf docs) (houseOf docs) pc)

/-- One bulk-write operation: `UpdateOne({'_id': ...}, {'$set': {...}})`. -/
structure UpdateOp where
  targetId : Nat
  sets : List (String × Option Val)

/-- `update_mongodb` (cron_regenerate.py lines 210-231): for each document,
collect the match fields it carries into a `$set`; documents carrying none of
the 45 fields produce no operation. -/
def updateMongodb (docs : List ProcDoc) : List UpdateOp :=
  docs.filterMap fun d =>
    match d.fields with
    | none => none
    | some f =>
      some ⟨d.base.docId,
        updateFieldsList.map fun s => (fieldName s.1 (s.2.1 + 1) s.2.2, f s.1 s.2.1 s.2.2)⟩

/-! ### The document store -/

/-- A persisted record: a string-keyed partial map of scalar fields. -/
abbrev Record := String → Option Val

/-- The store: records keyed by `_id` (unique per MongoDB). -/
abbrev DB := List (Nat × Record)

/-- Apply a `$set` document to a record. -/
def applySets (r : Record) (sets : List (String × Option Val)) : Record :=
  fun k =>
    match sets.find? fun p => p.1 == k with
    | some p => p.2
    | none => r k

/-- `UpdateOne` without `upsert`: modify the record whose `_id` matches;
when no record matches, the store is unchanged (no insert). -/
def applyOp (db : DB) (op : UpdateOp) : DB :=
  db.map fun e => if e.1 == op.targetId then (e.1, applySets e.2 op.sets) else e

/-- An unordered bulk write of all operations. -/
def applyOps (db : DB) (ops : List UpdateOp) : DB :=
  ops.foldl applyOp db

/-! ### Derived predicates read off the source's branch conditions -/

/-- A neighbor survives the date-parsing step of cron_regenerate.py lines
176-180 (is not `continue`d over): its date entry is absent or parses. -/
def survives1 (c : Ctx) (m : PMatch) : Bool :=
  (matchDateOf c (normMatchId m.id)).isSome

/-- The full guard under which cron_regenerate.py line 192 appends to
`same_day`: subject and neighbor dates resolved and parsed, calendar days
equal, and the optional auction houses equal in the Python sense
(`None == None` is true). -/
def sameDayEligible (c : Ctx) (m : PMatch) : Bool :=
  match matchDateOf c (normMatchId m.id), c.input_date with
  | some (some mdt), some idt => sameDayCond c idt mdt (normMatchId m.id)
  | _, _ => false

/-- The full guard under which cron_regenerate.py line 195 appends to
`before`: both dates resolved and parsed, the same-day condition fails (the
`elif`), and the neighbor's datetime is strictly earlier than the subject's
(full datetime comparison, not calendar-day). -/
def beforeEligible (c : Ctx) (m : PMatch) : Bool :=
  match matchDateOf c (normMatchId m.id), c.input_date with
  | some (some mdt), some idt =>
      !sameDayCond c idt mdt (normMatchId m.id) && DateTime.ltb mdt idt
  | _, _ => false

/-- The surviving neighbors of a scan, as `match_data` entries, in rank
order. -/
def survEntry1 (c : Ctx) (m : PMatch) : Option Entry :=
  if survives1 c m then some (mkEntryOf c m) else none

/-- Legacy survival (cron_regenerate_matches.py lines 111-116): the date
entry must be present and parse (`parse(None)` raises and is caught by the
same `continue`). -/
def survives2 (c : Ctx) (m : PMatch) : Bool :=
  match c.date (normMatchId m.id) with
  | some (.ok _) => true
  | _ => false

/-- The surviving neighbors of a legacy scan, as `match_data` entries. -/
def survEntry2 (c : Ctx) (m : PMatch) : Option Entry :=
  if survives2 c m then some (mkEntryOf c m) else none

/-! ### Step-level normal forms -/

theorem step1_overall (c : Ctx) (st : Cats) (m : PMatch) :
    (step1 c st m).overall =
      if survives1 c m && decide (st.overall.length < 5)
      then st.overall ++ [mkEntryOf c m] else st.overall := by
  unfold step1 survives1
  cases h : matchDateOf c (normMatchId m.id) with
  | none => simp [h]
  | some md =>
    rcases md with _ | mdt <;> rcases hi : c.input_date with _ | idt <;>
      simp only [h, hi] <;> split_ifs <;> (try simp_all) <;> omega

theorem step1_same_day (c : Ctx) (st : Cats) (m : PMatch) :
    (step1 c st m).same_day =
      if sameDayEligible c m && decide (st.same_day.length < 5)
      then st.same_day ++ [mkEntryOf c m] else st.same_day := by
  unfold step1 sameDayEligible
  cases h : matchDateOf c (normMatchId m.id) with
  | none => simp [h]
  | some md =>
    rcases md with _ | mdt <;> rcases hi : c.input_date with _ | idt <;>
      simp only [h, hi] <;> split_ifs <;> (try simp_all) <;> omega

theorem step1_before (c : Ctx) (st : Cats) (m : PMatch) :
    (step1 c st m).before =
      if beforeEligible c m && decide (st.before.length < 5)
      then st.before ++ [mkEntryOf c m] else st.before := by
  unfold step1 beforeEligible
  cases h : matchDateOf c (normMatchId m.id) with
  | none => simp [h]
  | some md =>
    rcases md with _ | mdt <;> rcases hi : c.input_date with _ | idt <;>
      simp only [h, hi] <;> split_ifs <;> (try simp_all) <;> omega

theorem step2_overall (c : Ctx) (st : Cats) (m : PMatch) :
    (step2 c st m).overall =
      if survives2 c m && decide (st.overall.length < 5)
      then st.overall ++ [mkEntryOf c m] else st.overall := by
  unfold step2 survives2
  cases hd : c.date (normMatchId m.id) with
  | none => simp [hd]
  | some p =>
    cases p with
    | err => simp [hd]
    | ok mdt =>
      rcases hi : c.input_date with _ | idt <;>
        simp only [hd, hi] <;> split_ifs <;> (try simp_all) <;> omega

theorem step1_skip (c : Ctx) (st : Cats) (m : PMatch)
    (h : survives1 c m = false) : step1 c st m = st := by
  unfold survives1 at h
  unfold step1
  cases hd : matchDateOf c (normMatchId m.id) with
  | none => simp [hd]
  | some md => rw [hd] at h; simp at h

theorem step2_skip (c : Ctx) (st : Cats) (m : PMatch)
    (h : survives2 c m = false) : step2 c st m = st := by
  unfold survives2 at h
  unfold step2
  cases hd : c.date (normMatchId m.id) with
  | none => simp [hd]
  | some p =>
    cases p with
    | err => simp [hd]
    | ok mdt => rw [hd] at h; simp at h

theorem step1_of_full (c : Ctx) (st : Cats) (m : PMatch)
    (h : isFull st = true) : step1 c st m = st := by
  unfold isFull at h
  simp only [Bool.and_eq_true, decide_eq_true_eq] at h
  unfold step1
  cases hd : matchDateOf c (normMatchId m.id) with
  | none => simp [hd]
  | some md =>
    rcases md with _ | mdt <;> rcases hi : c.input_date with _ | idt <;>
      simp only [hd, hi] <;> split_ifs <;> (try rfl) <;> omega

theorem step2_of_full (c : Ctx) (st : Cats) (m : PMatch)
    (h : isFull st = true) : step2 c st m = st := by
  unfold isFull at h
  simp only [Bool.and_eq_true, decide_eq_true_eq] at h
  unfold step2
  cases hd : c.date (normMatchId m.id) with
  | none => simp [hd]
  | some p =>
    cases p with
    | err => simp [hd]
    | ok mdt =>
      rcases hi : c.input_date with _ | idt <;>
        simp only [hd, hi] <;> split_ifs <;> (try rfl) <;> omega

theorem loop1_of_full (c : Ctx) (st : Cats) (ms : List PMatch)
    (h : isFull st = true) : loop1 c st ms = st := by
  cases ms <;> simp [loop1, h]

theorem loopFull_fixed (step : Cats → PMatch → Cats) (st : Cats)
    (ms : List PMatch) (h : ∀ m, step st m = st) : loopFull step st ms = st := by
  unfold loopFull
  induction ms with
  | nil => rfl
  | cons m ms ih => rw [List.foldl_cons, h m]; exact ih

/-- The spec's per-category cap: no container ever exceeds 5 entries. -/
def capped (st : Cats) : Prop :=
  st.overall.length ≤ 5 ∧ st.same_day.length ≤ 5 ∧ st.before.length ≤ 5

theorem step1_capped (c : Ctx) (st : Cats) (m : PMatch)
    (h : capped st) : capped (step1 c st m) := by
  obtain ⟨h1, h2, h3⟩ := h
  refine ⟨?_, ?_, ?_⟩
  · rw [step1_overall]; split_ifs with hh
    · simp only [Bool.and_eq_true, decide_eq_true_eq] at hh
      simp only [List.length_append, List.length_singleton]; omega
    · exact h1
  · rw [step1_same_day]; split_ifs with hh
    · simp only [Bool.and_eq_true, decide_eq_true_eq] at hh
      simp only [List.length_append, List.length_singleton]; omega
    · exact h2
  · rw [step1_before]; split_ifs with hh
    · simp only [Bool.and_eq_true, decide_eq_true_eq] at hh
      simp only [List.length_append, List.length_singleton]; omega
    · exact h3

theorem step2_capped (c : Ctx) (st : Cats) (m : PMatch)
    (h : capped st) : capped (step2 c st m) := by
  obtain ⟨h1, h2, h3⟩ := h
  unfold capped step2
  cases hd : c.date (normMatchId m.id) with
  | none => simp only [hd]; exact ⟨h1, h2, h3⟩
  | some p =>
    cases p with
    | err => simp only [hd]; exact ⟨h1, h2, h3⟩
    | ok mdt =>
      rcases hi : c.input_date with _ | idt <;>
        simp only [hd, hi] <;> split_ifs <;>
        refine ⟨?_, ?_, ?_⟩ <;> (try simp_all [List.length_append]) <;> (try omega)

theorem loop1_capped (c : Ctx) (ms : List PMatch) : ∀ st : Cats,
    capped st → capped (loop1 c st ms) := by
  induction ms with
  | nil => intro st h; exact h
  | cons m ms ih =>
    intro st h
    simp only [loop1]
    split_ifs with hf
    · exact h
    · exact ih (step1 c st m) (step1_capped c st m h)

theorem loop2_capped (c : Ctx) (ms : List PMatch) : ∀ st : Cats,
    capped st → capped (loop2 c st ms) := by
  induction ms with
  | nil => intro st h; exact h
  | cons m ms ih =>
    intro st h
    simp only [loop2]
    split_ifs with hf
    · exact step2_capped c st m h
    · exact ih (step2 c st m) (step2_capped c st m h)

theorem loop1_overall_eq (c : Ctx) (ms : List PMatch) : ∀ st : Cats,
    st.overall.length ≤ 5 →
    (loop1 c st ms).overall =
      st.overall ++ (ms.filterMap (survEntry1 c)).take (5 - st.overall.length) := by
  induction ms with
  | nil => intro st h; simp [loop1]
  | cons m ms ih =>
    intro st h
    simp only [loop1]
    split_ifs with hf
    · have h5 : 5 ≤ st.overall.length := by
        unfold isFull at hf
        simp only [Bool.and_eq_true, decide_eq_true_eq] at hf
        exact hf.1.1
      have hz : 5 - st.overall.length = 0 := by omega
      simp [hz]
    · cases hs : survEntry1 c m with
      | none =>
        have hskip : survives1 c m = false := by
          unfold survEntry1 at hs; split at hs <;> simp_all
        rw [step1_skip c st m hskip, ih st h]
        simp [List.filterMap_cons, hs]
      | some e =>
        have hsv : survives1 c m = true := by
          unfold survEntry1 at hs; split at hs <;> simp_all
        have he : e = mkEntryOf c m := by
          unfold survEntry1 at hs; rw [hsv] at hs
          simpa using hs.symm
        have ho : (step1 c st m).overall =
            if st.overall.length < 5 then st.overall ++ [mkEntryOf c m]
            else st.overall := by
          rw [step1_overall]; simp [hsv]
        by_cases hlen : st.overall.length < 5
        · have ho5 : (step1 c st m).overall.length ≤ 5 := by
            rw [ho]; simp only [hlen, if_true]
            simp only [List.length_append, List.length_singleton]; omega
          rw [ih (step1 c st m) ho5, ho]
          simp only [hlen, if_true]
          have harith : 5 - st.overall.length = (5 - (st.overall.length + 1)) + 1 := by
            omega
          rw [List.filterMap_cons_some hs, he]
          simp only [List.length_append, List.length_singleton]
          rw [harith, List.take_succ_cons, List.append_assoc]
          rfl
        · have heq : st.overall.length = 5 := by omega
          have ho5 : (step1 c st m).overall.length ≤ 5 := by
            rw [ho]; simp [hlen, heq]
          rw [ih (step1 c st m) ho5, ho]
          simp [hlen, heq]

theorem loop2_overall_eq (c : Ctx) (ms : List PMatch) : ∀ st : Cats,
    st.overall.length ≤ 5 →
    (loop2 c st ms).overall =
      st.overall ++ (ms.filterMap (survEntry2 c)).take (5 - st.overall.length) := by
  induction ms with
  | nil => intro st h; simp [loop2]
  | cons m ms ih =>
    intro st h
    simp only [loop2]
    cases hs : survEntry2 c m with
    | none =>
      have hskip : survives2 c m = false := by
        unfold survEntry2 at hs; split at hs <;> simp_all
      rw [step2_skip c st m hskip]
      split_ifs with hf
      · have h5 : 5 ≤ st.overall.length := by
          unfold isFull at hf
          simp only [Bool.and_eq_true, decide_eq_true_eq] at hf
          exact hf.1.1
        have hz : 5 - st.overall.length = 0 := by omega
        simp [hz, List.filterMap_cons, hs]
      · rw [ih st h]; simp [List.filterMap_cons, hs]
    | some e =>
      have hsv : survives2 c m = true := by
        unfold survEntry2 at hs; split at hs <;> simp_all
      have he : e = mkEntryOf c m := by
        unfold survEntry2 at hs; rw [hsv] at hs
        simpa using hs.symm
      have ho : (step2 c st m).overall =
          if st.overall.length < 5 then st.overall ++ [mkEntryOf c m]
          else st.overall := by
        rw [step2_overall]; simp [hsv]
      rw [List.filterMap_cons_some hs, he]
      split_ifs with hf
      · have h5 : 5 ≤ (step2 c st m).overall.length := by
          unfold isFull at hf
          simp only [Bool.and_eq_true, decide_eq_true_eq] at hf
          exact hf.1.1
        by_cases hlen : st.overall.length < 5
        · rw [ho] at h5 ⊢
          simp only [hlen, if_true] at h5 ⊢
          simp only [List.length_append, List.length_singleton] at h5
          have harith : 5 - st.overall.length = 1 := by omega
          rw [harith, List.take_succ_cons, List.take_zero]
        · rw [ho] at h5 ⊢
          simp only [hlen, if_false] at h5 ⊢
          have hz : 5 - st.overall.length = 0 := by omega
          simp [hz]
      · by_cases hlen : st.overall.length < 5
        · have ho5 : (step2 c st m).overall.length ≤ 5 := by
            rw [ho]; simp only [hlen, if_true]
            simp only [List.length_append, List.length_singleton]; omega
          rw [ih (step2 c st m) ho5, ho]
          simp only [hlen, if_true]
          have harith : 5 - st.overall.length = (5 - (st.overall.length + 1)) + 1 := by
            omega
          simp only [List.length_append, List.length_singleton]
          rw [harith, List.take_succ_cons, List.append_assoc]
          rfl
        · have heq : st.overall.length = 5 := by omega
          have ho5 : (step2 c st m).overall.length ≤ 5 := by
            rw [ho]; simp [hlen, heq]
          rw [ih (step2 c st m) ho5, ho]
          simp [hlen, heq]

theorem loop1_eq_foldl (c : Ctx) (ms : List PMatch) : ∀ st : Cats,
    loop1 c st ms = loopFull (step1 c) st ms := by
  induction ms with
  | nil => intro st; rfl
  | cons m ms ih =>
    intro st
    simp only [loop1, loopFull, List.foldl_cons]
    split_ifs with hf
    · rw [step1_of_full c st m hf]
      exact (loopFull_fixed (step1 c) st ms fun m2 => step1_of_full c st m2 hf).symm
    · exact ih (step1 c st m)

theorem loop2_eq_foldl (c : Ctx) (ms : List PMatch) : ∀ st : Cats,
    loop2 c st ms = loopFull (step2 c) st ms := by
  induction ms with
  | nil => intro st; rfl
  | cons m ms ih =>
    intro st
    simp only [loop2, loopFull, List.foldl_cons]
    split_ifs with hf
    · exact (loopFull_fixed (step2 c) (step2 c st m) ms fun m2 =>
        step2_of_full c (step2 c st m) m2 hf).symm
    · exact ih (step2 c st m)

theorem fillDoc_id_isSome (st : Cats) (c : Cat) (i : Nat) :
    (fillDoc st c i FieldKind.id).isSome = true ↔ i < ((st.get c).take 5).length := by
  unfold fillDoc
  cases h : ((st.get c).take 5).get? i with
  | none =>
    rw [List.get?_eq_none] at h
    simp only [Option.isSome_none, Bool.false_eq_true, false_iff, not_lt]
    exact h
  | some e =>
    have hlt : i < ((st.get c).take 5).length := by
      have := List.get?_eq_some.mp h
      exact this.1
    simp only [entryField, Option.isSome_some, true_iff]
    exact hlt

/-- Slot `i` (0-based) of a category is populated exactly when the category
list reaches past it; hence populated slots are contiguous from the bottom. -/
def contiguous (st : Cats) : Prop :=
  ∀ (c : Cat) (i j : Nat), j ≤ i →
    (fillDoc st c i FieldKind.id).isSome = true →
    (fillDoc st c j FieldKind.id).isSome = true

theorem contiguous_of_cats (st : Cats) : contiguous st := by
  intro c i j hji hi
  rw [fillDoc_id_isSome] at hi ⊢
  omega

theorem applyOp_keys (op : UpdateOp) : ∀ db : DB,
    (applyOp db op).map Prod.fst = db.map Prod.fst := by
  intro db
  induction db with
  | nil => rfl
  | cons e db ih =>
    simp only [applyOp, List.map_cons] at ih ⊢
    congr 1
    split_ifs <;> rfl

theorem applyOps_keys (ops : List UpdateOp) : ∀ db : DB,
    (applyOps db ops).map Prod.fst = db.map Prod.fst := by
  induction ops with
  | nil => intro db; rfl
  | cons op ops ih =>
    intro db
    show (applyOps (applyOp db op) ops).map Prod.fst = db.map Prod.fst
    rw [ih (applyOp db op), applyOp_keys]

theorem applySets_frame (r : Record) (sets : List (String × Option Val))
    (k : String) (h : ∀ p ∈ sets, p.1 ≠ k) : applySets r sets k = r k := by
  unfold applySets
  have hf : sets.find? (fun p => p.1 == k) = none := by
    rw [List.find?_eq_none]
    intro p hp
    simpa using h p hp
  rw [hf]

theorem applyOp_frame (op : UpdateOp) (db : DB) (n : Nat) (k : String)
    (h : ∀ p ∈ op.sets, p.1 ≠ k) :
    ((applyOp db op).get? n).map (fun e => e.2 k) =
      (db.get? n).map (fun e => e.2 k) := by
  unfold applyOp
  rw [List.get?_map, Option.map_map]
  apply congrArg (fun f => Option.map f (db.get? n))
  funext e
  show ((if e.1 == op.targetId then (e.1, applySets e.2 op.sets) else e)).2 k = e.2 k
  split_ifs with he
  · exact applySets_frame e.2 op.sets k h
  · rfl

theorem applyOps_frame (ops : List UpdateOp)
    (h : ∀ op ∈ ops, ∀ p ∈ op.sets, p.1 ∈ matchFieldNames) :
    ∀ (db : DB) (n : Nat) (k : String), k ∉ matchFieldNames →
    ((applyOps db ops).get? n).map (fun e => e.2 k) =
      (db.get? n).map (fun e => e.2 k) := by
  induction ops with
  | nil => intro db n k _; rfl
  | cons op ops ih =>
    intro db n k hk
    show ((applyOps (applyOp db op) ops).get? n).map (fun e => e.2 k) = _
    rw [ih (fun o ho => h o (List.mem_cons_of_mem op ho)) (applyOp db op) n k hk]
    exact applyOp_frame op db n k fun p hp => by
      intro hpk
      exact hk (hpk ▸ h op (List.mem_cons_self op ops) p hp)

/-! ### Claim theorems -/

/-- C6 (confirmed): membership in `overall` is independent of the other
categories — in both implementations, `overall` is exactly the first up-to-5
surviving neighbors in rank order, regardless of what enters `same_day` or
`before`. -/
theorem claim6_overall_independent (imageId : String) (nbrs : List PMatch)
    (bid : BidMap) (dm : DateMap) (hm : HouseMap) :
    (categorize1 imageId nbrs bid dm hm).overall =
      (nbrs.filterMap (survEntry1 (mkCtx imageId bid dm hm))).take 5 ∧
    (categorize2 imageId nbrs bid dm hm).overall =
      (nbrs.filterMap (survEntry2 (mkCtx imageId bid dm hm))).take 5 := by
  constructor
  · have h := loop1_overall_eq (mkCtx imageId bid dm hm) nbrs ⟨[], [], []⟩ (by simp)
    simpa [categorize1] using h
  · have h := loop2_overall_eq (mkCtx imageId bid dm hm) nbrs ⟨[], [], []⟩ (by simp)
    simpa [categorize2] using h

/-- C7 (confirmed): in both implementations every category of the produced
result holds at most 5 entries, and populated slots of the 45-field fill are
contiguous from slot 1. -/
theorem claim7_capped_contiguous (imageId : String) (nbrs : List PMatch)
    (bid : BidMap) (dm : DateMap) (hm : HouseMap) :
    capped (categorize1 imageId nbrs bid dm hm) ∧
    contiguous (categorize1 imageId nbrs bid dm hm) ∧
    capped (categorize2 imageId nbrs bid dm hm) ∧
    contiguous (categorize2 imageId nbrs bid dm hm) := by
  refine ⟨?_, contiguous_of_cats _, ?_, contiguous_of_cats _⟩
  · exact loop1_capped _ nbrs _ ⟨by simp, by simp, by simp⟩
  · exact loop2_capped _ nbrs _ ⟨by simp, by simp, by simp⟩

/-- Witness for C7 at a concrete input: with two surviving neighbors, slot 2
of `overall` is populated, so slot 1 below it is populated as well. -/
theorem claim7_witness :
    (fillDoc (categorize1 ("s") [⟨("n"), 1⟩, ⟨("p"), 1⟩]
        (fun _ => none) (fun _ => none) (fun _ => none)) Cat.overall 0 FieldKind.id).isSome
      = true :=
  (claim7_capped_contiguous ("s") [⟨("n"), 1⟩, ⟨("p"), 1⟩]
      (fun _ => none) (fun _ => none) (fun _ => none)).2.1
    Cat.overall 1 0 (by decide) (by decide)

/-- C8 (confirmed): the early-exit is a pure performance cutoff — in both
implementations the categorizer with the `break` equals the full-scan
variant on every input. -/
theorem claim8_early_exit_refines (imageId : String) (nbrs : List PMatch)
    (bid : BidMap) (dm : DateMap) (hm : HouseMap) :
    categorize1 imageId nbrs bid dm hm = categorize1Full imageId nbrs bid dm hm ∧
    categorize2 imageId nbrs bid dm hm = categorize2Full imageId nbrs bid dm hm :=
  ⟨loop1_eq_foldl (mkCtx imageId bid dm hm) nbrs ⟨[], [], []⟩,
   loop2_eq_foldl (mkCtx imageId bid dm hm) nbrs ⟨[], [], []⟩⟩

/-- C9 (confirmed): categorization is deterministic — equal inputs (subject
id, neighbor ranking, lookup-map snapshot) give equal Category Result Sets;
the categorizer reads no clock and no randomness. -/
theorem claim9_deterministic (id1 id2 : String) (ns1 ns2 : List PMatch)
    (b1 b2 : BidMap) (d1 d2 : DateMap) (hm1 hm2 : HouseMap)
    (hid : id1 = id2) (hns : ns1 = ns2) (hb : b1 = b2) (hd : d1 = d2)
    (hh : hm1 = hm2) :
    categorize1 id1 ns1 b1 d1 hm1 = categorize1 id2 ns2 b2 d2 hm2 := by
  subst hid hns hb hd hh
  rfl

/-- Witness for C9 at a concrete input. -/
theorem claim9_witness :
    categorize1 ("s") [⟨("n"), 1⟩] (fun _ => none) (fun _ => none) (fun _ => none) =
      categorize1 ("s") [⟨("n"), 1⟩] (fun _ => none) (fun _ => none) (fun _ => none) :=
  claim9_deterministic ("s") ("s") [⟨("n"), 1⟩] [⟨("n"), 1⟩]
    (fun _ => none) (fun _ => none) (fun _ => none) (fun _ => none)
    (fun _ => none) (fun _ => none) rfl rfl rfl rfl rfl

/-- C4 (corrected): a neighbor is appended to `same_day` iff `same_day` has
fewer than 5 entries and `sameDayEligible` holds: both dates resolved and
parsed, calendar days equal, and the two optional auction-house values equal
in the Python sense — two unknown houses compare equal (`None == None`), so
the claim's "both must be known" fails on the code; otherwise `same_day` is
unchanged. -/
theorem claim4_sameday_rule (c : Ctx) (st : Cats) (m : PMatch) :
    ((step1 c st m).same_day = st.same_day ++ [mkEntryOf c m] ↔
      sameDayEligible c m = true ∧ st.same_day.length < 5) ∧
    (¬(sameDayEligible c m = true ∧ st.same_day.length < 5) →
      (step1 c st m).same_day = st.same_day) := by
  have he := step1_same_day c st m
  constructor
  · constructor
    · intro hEq
      rw [he] at hEq
      revert hEq
      split_ifs with hif
      · intro _
        simpa only [Bool.and_eq_true, decide_eq_true_eq] using hif
      · intro hEq
        exfalso
        have hlen := congrArg List.length hEq
        simp at hlen
    · rintro ⟨h1, h2⟩
      rw [he, if_pos]
      simp only [Bool.and_eq_true, decide_eq_true_eq]
      exact ⟨h1, h2⟩
  · intro hc
    rw [he, if_neg]
    simp only [Bool.and_eq_true, decide_eq_true_eq]
    exact hc

/-- Witness for C4 at a concrete input: with no subject date the neighbor is
not same-day eligible and `same_day` stays empty. -/
theorem claim4_witness :
    (step1 ⟨none, none, (fun _ => none), (fun _ => none), (fun _ => none)⟩
        ⟨[], [], []⟩ ⟨("n"), 1⟩).same_day = ([] : List Entry) :=
  (claim4_sameday_rule ⟨none, none, (fun _ => none), (fun _ => none), (fun _ => none)⟩
      ⟨[], [], []⟩ ⟨("n"), 1⟩).2 (by decide)

/-- Counterexample to C4 as stated: subject and neighbor share the calendar
day and both auction houses are unknown (`None`), yet the neighbor IS
appended to `same_day`, because Python `None == None` is true — the claim's
"both must be known" does not hold on the code. -/
theorem claim4_counterexample :
    ((categorize1 ("s") [⟨("n"), 1⟩] (fun _ => none)
        (fun _ => some (Parsed.ok ⟨0, 0⟩)) (fun _ => none)).same_day.map Entry.id)
      = [("n")] := by decide

/-- C5 (corrected): a neighbor is appended to `before` iff `before` has fewer
than 5 entries and `beforeEligible` holds: both dates resolved and parsed,
the same-day condition fails (the branch is an `elif`), and the neighbor's
full datetime — not its calendar day — is strictly earlier than the
subject's; otherwise `before` is unchanged.  A neighbor sharing the subject's
calendar day can therefore enter `before` when its time-of-day is earlier. -/
theorem claim5_before_rule (c : Ctx) (st : Cats) (m : PMatch) :
    ((step1 c st m).before = st.before ++ [mkEntryOf c m] ↔
      beforeEligible c m = true ∧ st.before.length < 5) ∧
    (¬(beforeEligible c m = true ∧ st.before.length < 5) →
      (step1 c st m).before = st.before) := by
  have he := step1_before c st m
  constructor
  · constructor
    · intro hEq
      rw [he] at hEq
      revert hEq
      split_ifs with hif
      · intro _
        simpa only [Bool.and_eq_true, decide_eq_true_eq] using hif
      · intro hEq
        exfalso
        have hlen := congrArg List.length hEq
        simp at hlen
    · rintro ⟨h1, h2⟩
      rw [he, if_pos]
      simp only [Bool.and_eq_true, decide_eq_true_eq]
      exact ⟨h1, h2⟩
  · intro hc
    rw [he, if_neg]
    simp only [Bool.and_eq_true, decide_eq_true_eq]
    exact hc

/-- Context for the C5 witness: subject dated day 1, neighbor ("n") dated
day 0 — one day earlier. -/
def cw5ctx : Ctx :=
  ⟨some ⟨1, 0⟩, none, (fun _ => none),
   (fun k => if k = "n" then some (Parsed.ok ⟨0, 0⟩) else none), (fun _ => none)⟩

/-- Witness for C5 at a concrete input: a neighbor one calendar day earlier
is appended to `before`. -/
theorem claim5_witness :
    (step1 cw5ctx ⟨[], [], []⟩ ⟨("n"), 1⟩).before =
      ([] : List Entry) ++ [mkEntryOf cw5ctx ⟨("n"), 1⟩] :=
  (claim5_before_rule cw5ctx ⟨[], [], []⟩ ⟨("n"), 1⟩).1.mpr (by decide)

/-- Counterexample to C5 as stated: the neighbor's calendar day equals the
subject's (both day 0), only its time-of-day is earlier and its auction house
differs — yet it IS appended to `before`, because the code compares full
datetimes, not calendar days. -/
theorem claim5_counterexample :
    ((categorize1 ("s") [⟨("n"), 1⟩] (fun _ => none)
        (fun k => if k = "s" then some (Parsed.ok ⟨0, 5⟩) else some (Parsed.ok ⟨0, 1⟩))
        (fun k => if k = "s" then some ("A") else some ("B"))).before.map Entry.id
      = [("n")]) ∧ (⟨0, 5⟩ : DateTime).day = (⟨0, 1⟩ : DateTime).day := by
  constructor
  · decide
  · rfl

/-- C3 (corrected): a neighbor whose date string is absent from the map
keeps its `overall` eligibility and only loses `same_day`/`before`; but a
neighbor whose date string fails to parse is skipped entirely by the
`continue` (cron_regenerate.py line 180) — it is invisible to the whole
scan, `overall` included. -/
theorem claim3_date_failure_rule (c : Ctx) (st : Cats) (m : PMatch)
    (ms1 ms2 : List PMatch) :
    (c.date (normMatchId m.id) = some Parsed.err →
      loop1 c st (ms1 ++ m :: ms2) = loop1 c st (ms1 ++ ms2)) ∧
    (c.date (normMatchId m.id) = none →
      (step1 c st m).overall =
        (if st.overall.length < 5 then st.overall ++ [mkEntryOf c m]
         else st.overall) ∧
      (step1 c st m).same_day = st.same_day ∧
      (step1 c st m).before = st.before) := by
  constructor
  · intro herr
    have hskip : survives1 c m = false := by
      unfold survives1 matchDateOf
      rw [herr]
      rfl
    induction ms1 generalizing st with
    | nil =>
      simp only [List.nil_append]
      simp only [loop1]
      split_ifs with hf
      · exact (loop1_of_full c st ms2 hf).symm
      · rw [step1_skip c st m hskip]
    | cons m1 ms1 ih =>
      simp only [List.cons_append, loop1]
      split_ifs with hf
      · rfl
      · exact ih (step1 c st m1)
  · intro hnone
    have hmd : matchDateOf c (normMatchId m.id) = some none := by
      unfold matchDateOf
      rw [hnone]
    have hsv : survives1 c m = true := by
      unfold survives1
      rw [hmd]
      rfl
    have hsd : sameDayEligible c m = false := by
      unfold sameDayEligible
      rw [hmd]
    have hbf : beforeEligible c m = false := by
      unfold beforeEligible
      rw [hmd]
    refine ⟨?_, ?_, ?_⟩
    · rw [step1_overall, hsv]
      simp
    · rw [step1_same_day, hsd]
      simp
    · rw [step1_before, hbf]
      simp

/-- Context for the C3 witness: every date entry fails to parse. -/
def cw3ctx : Ctx :=
  ⟨none, none, (fun _ => none), (fun _ => some Parsed.err), (fun _ => none)⟩

/-- Witness for C3 at a concrete input: a neighbor with an unparseable date
is invisible — scanning it equals not scanning it. -/
theorem claim3_witness :
    loop1 cw3ctx ⟨[], [], []⟩ ([] ++ ⟨("e"), 1⟩ :: []) =
      loop1 cw3ctx ⟨[], [], []⟩ ([] ++ []) :=
  (claim3_date_failure_rule cw3ctx ⟨[], [], []⟩ ⟨("e"), 1⟩ [] []).1 (by decide)

/-- Counterexample to C3 as stated: the only neighbor has a date string that
fails to parse; the claim says it must still be appended to `overall`, but
the scan produces an entirely empty result. -/
theorem claim3_counterexample :
    categorize1 ("s") [⟨("n"), 1⟩] (fun _ => none)
        (fun _ => some Parsed.err) (fun _ => none) =
      (⟨[], [], []⟩ : Cats) := by decide

/-- C2 (corrected): no self-match filter exists anywhere between the index
response and categorization (`query_pinecone` returns `matches` untouched,
and `process_matches` never compares a neighbor id with the subject id); a
self-match is handled like any neighbor, so returned at rank 0 with a
parseable-or-absent date it becomes `overall` match 1, bearing the subject's
own (normalized) id. -/
theorem claim2_no_self_filter (imageId : String) (q : ℚ) (rest : List PMatch)
    (bid : BidMap) (dm : DateMap) (hm : HouseMap)
    (hsv : survives1 (mkCtx imageId bid dm hm) ⟨imageId, q⟩ = true) :
    (categorize1 imageId (⟨imageId, q⟩ :: rest) bid dm hm).overall.head? =
      some (mkEntryOf (mkCtx imageId bid dm hm) ⟨imageId, q⟩) ∧
    ((categorize1 imageId (⟨imageId, q⟩ :: rest) bid dm hm).overall.head?).map Entry.id =
      some (normMatchId imageId) := by
  have h := loop1_overall_eq (mkCtx imageId bid dm hm) (⟨imageId, q⟩ :: rest)
    ⟨[], [], []⟩ (by simp)
  have hse : survEntry1 (mkCtx imageId bid dm hm) ⟨imageId, q⟩ =
      some (mkEntryOf (mkCtx imageId bid dm hm) ⟨imageId, q⟩) := by
    unfold survEntry1
    rw [hsv]
    rfl
  have hh : (categorize1 imageId (⟨imageId, q⟩ :: rest) bid dm hm).overall.head? =
      some (mkEntryOf (mkCtx imageId bid dm hm) ⟨imageId, q⟩) := by
    unfold categorize1
    rw [h, List.filterMap_cons_some hse]
    simp
  exact ⟨hh, by rw [hh]; rfl⟩

/-- Witness for C2 at a concrete input: the index returns the subject itself
at rank 0 and it heads `overall`. -/
theorem claim2_witness :
    (categorize1 ("a") [⟨("a"), 1⟩] (fun _ => none) (fun _ => none)
        (fun _ => none)).overall.head? =
      some (mkEntryOf (mkCtx ("a") (fun _ => none) (fun _ => none) (fun _ => none))
        ⟨("a"), 1⟩) :=
  (claim2_no_self_filter ("a") 1 [] (fun _ => none) (fun _ => none) (fun _ => none)
    (by decide)).1

/-- Counterexample to C2 as stated: the index returns the subject's own id
("a") at rank 0; after the full per-document pipeline the persisted update
sets `overall_match_1_id` to that very id — the subject appears as its own
match. -/
theorem claim2_counterexample :
    ((updateMongodb (regenerateRun [⟨1, ("a"), none, none, none⟩]
        (fun k => if k = "a" then [⟨("a"), 1⟩] else []))).head?.bind
      (fun op => (op.sets.find? (fun p => p.1 == "overall_match_1_id")).map
        (fun p => p.2))) = some (some (Val.str ("a"))) := by decide

/-- The update operation one fetched document contributes to the bulk write:
none when its image id is empty or its neighbor query came back empty
(the document passes through untouched); otherwise an update setting all 45
match fields from the categorization fill. -/
def runOpFor (bid : BidMap) (dm : DateMap) (hm : HouseMap)
    (pc : String → List PMatch) (d : FetchedDoc) : Option UpdateOp :=
  if d.file = "" then none
  else if (pc d.file).isEmpty then none
  else
    some ⟨d.docId, updateFieldsList.map fun s =>
      (fieldName s.1 (s.2.1 + 1) s.2.2,
        fillDoc (categorize1 (normFileId d.file) (pc d.file) bid dm hm)
          s.1 s.2.1 s.2.2)⟩

/-- C1 (corrected): the bulk write of a regeneration run consists of exactly
one operation per document whose image id is non-empty and whose neighbor
query returned a non-empty list, and that operation sets all 45 fields —
populated slots to their new values, unfilled slots explicitly to null.
Documents whose neighbor query returned an empty list (and documents with an
empty image id) contribute no operation at all, so their previously persisted
fields are retained, contrary to the claim as stated. -/
theorem claim1_run_update_shape (docs : List FetchedDoc)
    (pc : String → List PMatch) :
    updateMongodb (regenerateRun docs pc) =
      docs.filterMap (runOpFor (bidOf docs) (dateOf docs) (houseOf docs) pc) := by
  unfold regenerateRun updateMongodb
  rw [List.filterMap_map]
  congr 1
  funext d
  simp only [Function.comp]
  unfold runDoc runOpFor docProcessMatches1
  split_ifs <;> rfl

/-- Counterexample to C1 as stated: the store holds a stale
`overall_match_1_id` from a prior run; the subject is processed by the run
but its neighbor query returns the empty list, so the run issues no update
for it and the stale value survives instead of being cleared to null. -/
theorem claim1_counterexample :
    ((applyOps
        [((1 : Nat),
          (fun k => if k = "overall_match_1_id" then some (Val.str ("stale"))
            else none))]
        (updateMongodb (regenerateRun [⟨1, ("a"), none, none, none⟩]
          (fun _ => [])))).head?.map
      (fun e => e.2 ("overall_match_1_id"))) = some (some (Val.str ("stale"))) ∧
    (regenerateRun [⟨1, ("a"), none, none, none⟩] (fun _ => [])).length = 1 := by
  constructor
  · rfl
  · rfl

/-- C10 (confirmed): the Snapshot Writer only updates: every operation it
emits is keyed by the `_id` of a document it was given, every `$set` key is
one of the 45 match-field names, applying the bulk write preserves the
store's records and their identities (no insert, no delete), and any field
outside the 45-name schema is left unchanged on every record. -/
theorem claim10_writer_frame (docs : List ProcDoc) (db : DB) :
    (∀ op ∈ updateMongodb docs, op.targetId ∈ docs.map fun d => d.base.docId) ∧
    (∀ op ∈ updateMongodb docs, ∀ p ∈ op.sets, p.1 ∈ matchFieldNames) ∧
    ((applyOps db (updateMongodb docs)).map Prod.fst = db.map Prod.fst) ∧
    (∀ (n : Nat) (k : String), k ∉ matchFieldNames →
      ((applyOps db (updateMongodb docs)).get? n).map (fun e => e.2 k) =
        (db.get? n).map (fun e => e.2 k)) := by
  have hkeys : ∀ op ∈ updateMongodb docs, ∀ p ∈ op.sets, p.1 ∈ matchFieldNames := by
    intro op hop p hp
    obtain ⟨d, hd, hfd⟩ := List.mem_filterMap.mp hop
    cases hf : d.fields with
    | none => rw [hf] at hfd; exact absurd hfd (by simp)
    | some f =>
      rw [hf] at hfd
      simp only [Option.some.injEq] at hfd
      rw [← hfd] at hp
      simp only at hp
      obtain ⟨sl, hsl, hps⟩ := List.mem_map.mp hp
      unfold matchFieldNames
      exact List.mem_map.mpr ⟨sl, hsl, by rw [← hps]⟩
  refine ⟨?_, hkeys, applyOps_keys _ db, ?_⟩
  · intro op hop
    obtain ⟨d, hd, hfd⟩ := List.mem_filterMap.mp hop
    cases hf : d.fields with
    | none => rw [hf] at hfd; exact absurd hfd (by simp)
    | some f =>
      rw [hf] at hfd
      simp only [Option.some.injEq] at hfd
      exact List.mem_map.mpr ⟨d, hd, by rw [← hfd]⟩
  · intro n k hk
    exact applyOps_frame _ hkeys db n k hk

/-- Store and batch for the C10 witness: one record with a non-match field
`auction_house`, one processed document targeting it. -/
def cw10db : DB :=
  [((7 : Nat), fun k => if k = "auction_house" then some (Val.str ("A")) else none)]

def cw10docs : List ProcDoc :=
  [⟨⟨7, ("x"), none, none, none⟩, some (fun _ _ _ => none)⟩]

/-- Witness for C10 at a concrete input: after the bulk write, the
`auction_house` field (not one of the 45) is unchanged. -/
theorem claim10_witness :
    ((applyOps cw10db (updateMongodb cw10docs)).get? 0).map
        (fun e => e.2 ("auction_house")) =
      (cw10db.get? 0).map (fun e => e.2 ("auction_house")) :=
  (claim10_writer_frame cw10docs cw10db).2.2.2 0 ("auction_house") (by decide)

end CronSaffron
